import Mathlib

/-!
Verification of the shared broker plumbing of the india-stocks-api repository:
the `Broker.fetch` error translation, the AngelOne token-cache read path, the
instrument-token normalization pipeline (`create_eq_tokens`), the future-date
filter, the expiry-discovery retry loop, and the expiry bucketizer
(`jsonify_expiry`).  Python strings are modelled as Lean `String`s, with the
string primitives used by the source (substring test, suffix test,
lexicographic comparison) implemented over `String.data` so that every
definition evaluates inside the kernel.  Wall-clock instants are modelled as
integer minutes; `timedelta(days=1)` is 1440 minutes.  Python floats produced
by dividing a tick size by 100 are modelled as exact rationals.
-/

set_option maxHeartbeats 1000000

namespace IndiaStocks

/-! ## String primitives (models of the Python operators used by the source) -/

/-- Model of the Python membership test `pat in s` (substring containment). -/
def isSubAux (pat : List Char) : List Char → Bool
  | [] => pat.isEmpty
  | c :: cs => pat.isPrefixOf (c :: cs) || isSubAux pat cs

/-- Here `containsSub s pat` models Python `pat in s`. -/
def containsSub (s pat : String) : Bool :=
  isSubAux pat.data s.data

/-- Model of Python `str.endswith`. -/
def strEndsWith (s suffix : String) : Bool :=
  suffix.data.isSuffixOf s.data

/-- Code-point lexicographic `≤` on char lists: Python string comparison. -/
def strLeAux : List Char → List Char → Bool
  | [], _ => true
  | _ :: _, [] => false
  | a :: as, b :: bs =>
    if a.toNat < b.toNat then true
    else if b.toNat < a.toNat then false
    else strLeAux as bs

/-- Model of Python `s <= t` on strings. -/
def strLe (s t : String) : Bool :=
  strLeAux s.data t.data

theorem strLeAux_total (as bs : List Char) :
    strLeAux as bs = true ∨ strLeAux bs as = true := by
  induction as generalizing bs with
  | nil => exact Or.inl rfl
  | cons a as ih =>
    cases bs with
    | nil => exact Or.inr rfl
    | cons b bs =>
      simp only [strLeAux]
      rcases Nat.lt_trichotomy a.toNat b.toNat with h | h | h
      · left; simp [h]
      · have hba : ¬ b.toNat < a.toNat := by omega
        have hab : ¬ a.toNat < b.toNat := by omega
        rcases ih bs with h2 | h2
        · left; simp [hab, hba, h2]
        · right; simp [hab, hba, h2]
      · right; simp [h]

theorem strLeAux_trans (as bs cs : List Char) (h1 : strLeAux as bs = true)
    (h2 : strLeAux bs cs = true) : strLeAux as cs = true := by
  induction as generalizing bs cs with
  | nil => rfl
  | cons a as ih =>
    cases bs with
    | nil => simp [strLeAux] at h1
    | cons b bs =>
      cases cs with
      | nil => simp [strLeAux] at h2
      | cons c cs =>
        simp only [strLeAux] at h1 h2 ⊢
        by_cases hab : a.toNat < b.toNat
        · by_cases hbc : b.toNat < c.toNat
          · have hac : a.toNat < c.toNat := Nat.lt_trans hab hbc
            simp [hac]
          · by_cases hcb : c.toNat < b.toNat
            · rw [if_neg hbc, if_pos hcb] at h2
              exact Bool.noConfusion h2
            · have hac : a.toNat < c.toNat := by omega
              simp [hac]
        · by_cases hba : b.toNat < a.toNat
          · rw [if_neg hab, if_pos hba] at h1
            exact Bool.noConfusion h1
          · by_cases hbc : b.toNat < c.toNat
            · have hac : a.toNat < c.toNat := by omega
              simp [hac]
            · by_cases hcb : c.toNat < b.toNat
              · rw [if_neg hbc, if_pos hcb] at h2
                exact Bool.noConfusion h2
              · have hac : ¬ a.toNat < c.toNat := by omega
                have hca : ¬ c.toNat < a.toNat := by omega
                rw [if_neg hab, if_neg hba] at h1
                rw [if_neg hbc, if_neg hcb] at h2
                rw [if_neg hac, if_neg hca]
                exact ih bs cs h1 h2

/-! ## Error taxonomy (core/brokers/base/errors.py), plus the Python built-in
errors that the embedded code can raise. -/

inductive ErrKind where
  | inputError
  | responseError
  | tokenDownloadError
  | requestTimeout
  | networkError
  | brokerError
  /-- Python built-in `ValueError`. -/
  | valueError
  /-- Python built-in `AttributeError`. -/
  | attributeError
  /-- Python built-in `KeyError`. -/
  | keyError
  /-- Python built-in `IndexError`. -/
  | indexError
  deriving DecidableEq

/-- A raised exception: its class and its message/detail payload. -/
structure PyErr where
  kind : ErrKind
  msg : String
  deriving DecidableEq

/-- The exception class of a failed computation, if it failed. -/
def errKindOf {α : Type} : Except PyErr α → Option ErrKind
  | .error e => some e.kind
  | .ok _ => none

/-! ## C1 — the AngelOne token-cache read path
(src/core/brokers/angel_one.py, `_read_cache` / `_is_cache_valid` /
`_fetch_tokens`).  Instants are integer minutes; `timedelta(days=1)` = 1440. -/

/-- One day, in minutes (`timedelta(days=1)`). -/
def oneDay : Int := 1440

/-- Calendar date (day index) of an instant: floor division by the minutes of
a day.  Used only to state the spec side of the claim. -/
def dateOf (t : Int) : Int := Int.fdiv t 1440

/-- A persisted cache entry `{"timestamp": ..., "data": ...}`. -/
structure CacheEntry (α : Type) where
  timestamp : Int
  data : α
  deriving DecidableEq

/-- Embeds `AngelOne._is_cache_valid`: `datetime.now() - cache_time < timedelta(days=1)`. -/
def is_cache_valid {α : Type} (now : Int) (e : CacheEntry α) : Bool :=
  now - e.timestamp < oneDay

/-- The cache read path of `AngelOne._fetch_tokens`: `_read_cache` yields
`none` for a missing or corrupt file, and the payload is returned only when
`cache_data and cls._is_cache_valid(cache_data)` holds; otherwise the network
branch is taken (modelled as `none`). -/
def fetch_tokens_cache_read {α : Type} (now : Int) (cache : Option (CacheEntry α)) :
    Option α :=
  match cache with
  | some e => if is_cache_valid now e then some e.data else none
  | none => none

/-- C1, counterexample: an entry written at 23:59 (minute 1439 of day 0) and
read at 00:01 the next day (minute 1441) is on a different calendar date, yet
the cache read path still returns the payload: validity is a 24-hour TTL, not
calendar-date equality. -/
theorem cache_calendar_day_counterexample :
    fetch_tokens_cache_read 1441 (some (⟨1439, 7⟩ : CacheEntry Nat)) = some 7
      ∧ dateOf 1439 ≠ dateOf 1441 := by
  exact ⟨rfl, by decide⟩

/-- C1, amended: the read path used by `_fetch_tokens` returns the cached
payload iff an entry exists and the elapsed wall-clock time since its stored
timestamp is less than one day (`datetime.now() - cache_time <
timedelta(days=1)`); the stored calendar date is irrelevant. -/
theorem cache_read_is_ttl_one_day {α : Type} (now : Int) (e : CacheEntry α) :
    (fetch_tokens_cache_read now (some e) = some e.data ↔ now - e.timestamp < oneDay)
      ∧ fetch_tokens_cache_read now (none : Option (CacheEntry α)) = none := by
  constructor
  · constructor
    · intro h
      by_contra hlt
      have hb : is_cache_valid now e = false := by
        simp [is_cache_valid, hlt]
      simp [fetch_tokens_cache_read, hb] at h
    · intro h
      have hb : is_cache_valid now e = true := by
        simp [is_cache_valid, h]
      simp [fetch_tokens_cache_read, hb]
  · rfl

/-- C1 witness for the amended statement: the 23:59 entry read at 00:01 is
within the 24-hour TTL, so the payload is returned. -/
theorem cache_read_is_ttl_one_day_witness :
    fetch_tokens_cache_read 1441 (some (⟨1439, 7⟩ : CacheEntry Nat)) = some 7 :=
  (cache_read_is_ttl_one_day 1441 (⟨1439, 7⟩ : CacheEntry Nat)).1.mpr (by decide)

/-! ## C2 — `Broker.fetch` error translation
(src/core/brokers/base/base.py, lines 114-169).  The transport exception
raised by `session.request` / `raise_for_status` is modelled by the except
clause that catches it (Python resolves an exception to the first matching
`except` clause, in source order). -/

/-- Identification data of the call, used in every detail payload. -/
structure FetchCtx where
  id : String
  method : String
  url : String
  deriving DecidableEq

/-- The response object, when one exists at the time an `HTTPError` is
raised. -/
structure RespInfo where
  status_code : Nat
  text : String
  deriving DecidableEq

/-- The transport exception as dispatched by the except chain of
`Broker.fetch`: one constructor per clause, each carrying `str(exc)`. -/
inductive TransportExc where
  | timeout (msg : String)
  | connectionError (msg : String)
  | connectionReset (msg : String)
  | tooManyRedirects (msg : String)
  | sslError (msg : String)
  | httpError (msg : String)
  | requestException (msg : String)
  deriving DecidableEq

/-- The three message fragments that route a generic `RequestException` to
`NetworkError`. -/
def networkErrorPatterns : List String :=
  ["ECONNRESET", "Connection aborted.", "Connection broken:"]

/-- The except chain of `Broker.fetch` (base.py lines 129-169): translates
the caught transport exception into the raised library error. -/
def fetch_translate (ctx : FetchCtx) (response : Option RespInfo) :
    TransportExc → PyErr
  | .timeout _ =>
      ⟨.requestTimeout, ctx.id ++ " " ++ ctx.method ++ " " ++ ctx.url⟩
  | .connectionError m =>
      let details := String.intercalate " " [ctx.id, ctx.method, ctx.url, m]
      if containsSub m "Read timed out" then ⟨.requestTimeout, details⟩
      else ⟨.networkError, details⟩
  | .connectionReset _ =>
      ⟨.networkError, ctx.id ++ " " ++ ctx.method ++ " " ++ ctx.url⟩
  | .tooManyRedirects _ =>
      ⟨.brokerError, ctx.id ++ " " ++ ctx.method ++ " " ++ ctx.url⟩
  | .sslError _ =>
      ⟨.brokerError, ctx.id ++ " " ++ ctx.method ++ " " ++ ctx.url⟩
  | .httpError _ =>
      match response with
      | some r =>
          ⟨.brokerError, ctx.id ++ " " ++ ctx.method ++ " " ++ toString r.status_code
            ++ " " ++ ctx.url ++ " " ++ r.text⟩
      | none =>
          ⟨.brokerError, ctx.id ++ " " ++ ctx.method ++ " " ++ ctx.url
            ++ " (no response available)"⟩
  | .requestException m =>
      if networkErrorPatterns.any (fun p => containsSub m p) then ⟨.networkError, m⟩
      else ⟨.brokerError, m⟩

/-- C2: `Broker.fetch` translates transport failures by kind in the except
chain order: a request timeout to `RequestTimeout`; a connection error
whose message contains a read-timeout indication to `RequestTimeout`, any
other connection error to `NetworkError`; an OS-level connection reset to
`NetworkError`; too-many-redirects and TLS failures to `BrokerError`; an
HTTP status error to `BrokerError` whose detail carries the status code and
body when a response object exists, else notes no response was available;
a generic transport exception containing one of "ECONNRESET",
"Connection aborted.", "Connection broken:" to `NetworkError`; and every
remaining transport exception to `BrokerError`. -/
theorem fetch_error_translation (ctx : FetchCtx) (resp : Option RespInfo)
    (r : RespInfo) (m : String) :
    (fetch_translate ctx resp (.timeout m)).kind = .requestTimeout
  ∧ (fetch_translate ctx resp (.connectionError m)).kind =
      (if containsSub m "Read timed out" then ErrKind.requestTimeout
        else ErrKind.networkError)
  ∧ (fetch_translate ctx resp (.connectionReset m)).kind = .networkError
  ∧ (fetch_translate ctx resp (.tooManyRedirects m)).kind = .brokerError
  ∧ (fetch_translate ctx resp (.sslError m)).kind = .brokerError
  ∧ fetch_translate ctx (some r) (.httpError m) =
      ⟨.brokerError, ctx.id ++ " " ++ ctx.method ++ " " ++ toString r.status_code
        ++ " " ++ ctx.url ++ " " ++ r.text⟩
  ∧ fetch_translate ctx none (.httpError m) =
      ⟨.brokerError, ctx.id ++ " " ++ ctx.method ++ " " ++ ctx.url
        ++ " (no response available)"⟩
  ∧ (fetch_translate ctx resp (.requestException m)).kind =
      (if networkErrorPatterns.any (fun p => containsSub m p) then ErrKind.networkError
        else ErrKind.brokerError) := by
  refine ⟨rfl, ?_, rfl, rfl, rfl, rfl, rfl, ?_⟩
  · by_cases h : containsSub m "Read timed out" <;> simp [fetch_translate, h]
  · by_cases h : networkErrorPatterns.any (fun p => containsSub m p) <;>
      simp [fetch_translate, h]

/-- C2 witness: a concrete timeout is translated to `RequestTimeout`, and a
concrete HTTP error with a response carries the status and body. -/
theorem fetch_error_translation_witness :
    (fetch_translate ⟨"angelone", "GET", "https://x"⟩ none (.timeout "t")).kind
        = ErrKind.requestTimeout
  ∧ fetch_translate ⟨"angelone", "GET", "https://x"⟩ (some ⟨500, "body"⟩)
        (.httpError "e")
      = ⟨.brokerError, "angelone" ++ " " ++ "GET" ++ " " ++ toString (500 : Nat)
          ++ " " ++ "https://x" ++ " " ++ "body"⟩ :=
  ⟨(fetch_error_translation ⟨"angelone", "GET", "https://x"⟩ none ⟨500, "body"⟩ "t").1,
   (fetch_error_translation ⟨"angelone", "GET", "https://x"⟩ none ⟨500, "body"⟩ "e").2.2.2.2.2.1⟩

/-! ## The instrument-token normalization pipeline
(src/core/brokers/angel_one.py, `create_eq_tokens`).  A decoded instrument
row carries the columns the pipeline touches; `tick_size` is `none` for a row
whose JSON object lacks the key (the pandas frame then holds NaN in that
cell, and the column is absent only when no row has the key).  Raw string
tick sizes coerced by `astype(float)` are modelled as exact rationals, and
the raw string token coerced by `astype(int)` as an integer. -/

structure RawInstr where
  token : Int
  symbol : String
  name : String
  exch_seg : String
  tick_size : Option ℚ
  lotsize : String
  deriving DecidableEq

/-- Embeds `"tick_size" in df.columns`: a `DataFrame(json_list)` has the column iff
some row has the key in its JSON object. -/
def hasTickSizeColumn (rows : List RawInstr) : Bool :=
  rows.any (fun r => r.tick_size.isSome)

/-- A canonical equity record after renaming; the NSE table drops the
`Index` (display name) column after using it as the key, leaving the same
shape as the BSE record. -/
structure EqRecord where
  Symbol : String
  Token : Int
  TickSize : Option ℚ
  LotSize : String
  Exchange : String
  deriving DecidableEq

/-- Embeds `df["tick_size"] = df["tick_size"].astype(float) / 100`, per row. -/
def scaleTick (r : RawInstr) : RawInstr :=
  { r with tick_size := r.tick_size.map (fun x => x / 100) }

/-- Column selection plus renaming into the canonical record shape. -/
def mkEqRecord (r : RawInstr) : EqRecord :=
  ⟨r.symbol, r.token, r.tick_size, r.lotsize, r.exch_seg⟩

/-- Embeds `df["exch_seg"] == ExchangeCode.BSE`.  `ExchangeCode.BSE` is the string
"BSE": core/brokers/base/constants.py is not under src/, its value is pinned
by tests/core/brokers/base/test_constants.py. -/
def bseFilter (r : RawInstr) : Bool := r.exch_seg == "BSE"

/-- Embeds `df["symbol"].str.endswith("-EQ")`. -/
def nseFilter (r : RawInstr) : Bool := strEndsWith r.symbol "-EQ"

/-- Embeds `drop_duplicates(subset=[key], keep="first")`: keep a row iff its key has
not been seen earlier in the list. -/
def dedupFirstAux {α κ : Type} [BEq κ] (key : α → κ) (seen : List κ) :
    List α → List α
  | [] => []
  | x :: xs =>
      if seen.contains (key x) then dedupFirstAux key seen xs
      else x :: dedupFirstAux key (key x :: seen) xs

def dedupFirst {α κ : Type} [BEq κ] (key : α → κ) (l : List α) : List α :=
  dedupFirstAux key [] l

/-- Lookup in a symbol-indexed table. -/
def lookupTable {β : Type} (t : List (String × β)) (k : String) : Option β :=
  (t.find? (fun p => p.1 == k)).map (fun p => p.2)

/-- The pair of per-exchange equity tables stored into `cls.eq_tokens`
(keys `ExchangeCode.NSE` and `ExchangeCode.BSE`). -/
structure EqTokens where
  nse : List (String × EqRecord)
  bse : List (String × EqRecord)
  deriving DecidableEq

/-- Embeds `AngelOne.create_eq_tokens` on the decoded instrument master:
empty-list check, tick-size column check, `/100` scaling of the whole
column, then per-exchange selection, first-wins deduplication (by `symbol`
for BSE, by the `name`-derived `Index` for NSE) and indexing by the
deduplication key. -/
def create_eq_tokens (json_list : List RawInstr) : Except PyErr EqTokens :=
  if json_list.isEmpty then
    .error ⟨.tokenDownloadError, "No data fetched from AngelOne API."⟩
  else if ¬ hasTickSizeColumn json_list then
    .error ⟨.tokenDownloadError,
      "Required \x27tick_size\x27 column not found in fetched data."⟩
  else
    let df := json_list.map scaleTick
    let bseRows := dedupFirst (fun r => r.symbol) (df.filter bseFilter)
    let nseRows := dedupFirst (fun r => r.name) (df.filter nseFilter)
    .ok ⟨nseRows.map (fun r => (r.name, mkEqRecord r)),
         bseRows.map (fun r => (r.symbol, mkEqRecord r))⟩

/-! Deduplication lemmas: the first-wins dedup keeps the keys nodup and does
not change what `find?` by key sees. -/

theorem mem_dedupFirstAux {α κ : Type} [BEq κ] (key : α → κ) :
    ∀ (seen : List κ) (l : List α) (x : α), x ∈ dedupFirstAux key seen l → x ∈ l := by
  intro seen l
  induction l generalizing seen with
  | nil => intro x h; exact absurd h (by simp [dedupFirstAux])
  | cons a as ih =>
    intro x h
    simp only [dedupFirstAux] at h
    by_cases hs : seen.contains (key a)
    · rw [if_pos hs] at h
      exact List.mem_cons_of_mem a (ih seen x h)
    · rw [if_neg hs] at h
      rcases List.mem_cons.mp h with h | h
      · exact h ▸ List.mem_cons_self a as
      · exact List.mem_cons_of_mem a (ih _ x h)

theorem find?_dedupFirstAux {α κ : Type} [BEq κ] [LawfulBEq κ] (key : α → κ) (k : κ) :
    ∀ (seen : List κ) (l : List α), ¬ seen.contains k →
      (dedupFirstAux key seen l).find? (fun r => key r == k)
        = l.find? (fun r => key r == k) := by
  intro seen l
  induction l generalizing seen with
  | nil => intro _; rfl
  | cons a as ih =>
    intro hk
    simp only [dedupFirstAux]
    by_cases hs : seen.contains (key a)
    · rw [if_pos hs]
      have hne : (key a == k) = false := by
        by_contra hb
        rw [Bool.not_eq_false, beq_iff_eq] at hb
        exact hk (hb ▸ hs)
      rw [List.find?_cons_of_neg _ (by simp [hne]), ih seen hk]
    · rw [if_neg hs]
      by_cases hak : (key a == k) = true
      · rw [List.find?_cons_of_pos _ (by simp [hak]),
            List.find?_cons_of_pos _ (by simp [hak])]
      · rw [List.find?_cons_of_neg _ (by simp at hak ⊢; exact hak),
            List.find?_cons_of_neg _ (by simp at hak ⊢; exact hak)]
        refine ih (key a :: seen) ?_
        simp only [List.contains_cons, Bool.or_eq_true, not_or]
        refine ⟨?_, by simpa using hk⟩
        intro hb
        have hb2 : k = key a := by simpa using hb
        exact hak (by rw [hb2]; exact beq_self_eq_true (key a))

theorem keys_nodup_dedupFirstAux {α κ : Type} [BEq κ] [LawfulBEq κ] (key : α → κ) :
    ∀ (seen : List κ) (l : List α),
      ((dedupFirstAux key seen l).map key).Nodup
        ∧ ∀ x ∈ dedupFirstAux key seen l, ¬ seen.contains (key x) := by
  intro seen l
  induction l generalizing seen with
  | nil => exact ⟨List.nodup_nil, by simp [dedupFirstAux]⟩
  | cons a as ih =>
    simp only [dedupFirstAux]
    by_cases hs : seen.contains (key a)
    · rw [if_pos hs]
      exact ih seen
    · rw [if_neg hs]
      obtain ⟨hnd, hmem⟩ := ih (key a :: seen)
      refine ⟨?_, ?_⟩
      · simp only [List.map_cons, List.nodup_cons]
        refine ⟨?_, hnd⟩
        intro hmem2
        rcases List.mem_map.mp hmem2 with ⟨x, hx, hkx⟩
        have := hmem x hx
        simp only [List.contains_cons, Bool.or_eq_true, not_or] at this
        exact this.1 (by simp [hkx])
      · intro x hx
        rcases List.mem_cons.mp hx with h | h
        · exact h ▸ hs
        · have := hmem x h
          simp only [List.contains_cons, Bool.or_eq_true, not_or] at this
          exact this.2

theorem find?_dedupFirst {α κ : Type} [BEq κ] [LawfulBEq κ] (key : α → κ)
    (k : κ) (l : List α) :
    (dedupFirst key l).find? (fun r => key r == k) = l.find? (fun r => key r == k) :=
  find?_dedupFirstAux key k [] l (by simp)

theorem keys_nodup_dedupFirst {α κ : Type} [BEq κ] [LawfulBEq κ] (key : α → κ)
    (l : List α) : ((dedupFirst key l).map key).Nodup :=
  (keys_nodup_dedupFirstAux key [] l).1

/-- Lookup in a table built by mapping rows to `(key, record)` pairs is
`find?` by key followed by the record constructor. -/
theorem lookupTable_map_key {α : Type} (key : α → String) (f : α → EqRecord)
    (l : List α) (k : String) :
    lookupTable (l.map (fun r => (key r, f r))) k
      = (l.find? (fun r => key r == k)).map f := by
  unfold lookupTable
  rw [List.find?_map]
  have : ((fun p : String × EqRecord => p.1 == k) ∘ fun r => (key r, f r))
      = fun r => key r == k := rfl
  rw [this]
  cases l.find? (fun r => key r == k) <;> rfl

/-! Structural helpers shared by the `create_eq_tokens` claims. -/

theorem create_eq_tokens_ok (rows : List RawInstr) (t : EqTokens)
    (h : create_eq_tokens rows = .ok t) :
    t.nse = (dedupFirst (fun r => r.name) ((rows.map scaleTick).filter nseFilter)).map
        (fun r => (r.name, mkEqRecord r))
  ∧ t.bse = (dedupFirst (fun r => r.symbol) ((rows.map scaleTick).filter bseFilter)).map
        (fun r => (r.symbol, mkEqRecord r)) := by
  unfold create_eq_tokens at h
  by_cases h1 : rows.isEmpty
  · rw [if_pos h1] at h; exact absurd h (by simp)
  · rw [if_neg h1] at h
    by_cases h2 : hasTickSizeColumn rows
    · rw [if_neg (by simpa using h2)] at h
      have := Except.ok.inj h
      exact ⟨congrArg EqTokens.nse this.symm, congrArg EqTokens.bse this.symm⟩
    · rw [if_pos (by simpa using h2)] at h; exact absurd h (by simp)

theorem filter_scaleTick_bse (rows : List RawInstr) :
    (rows.map scaleTick).filter bseFilter = (rows.filter bseFilter).map scaleTick := by
  rw [List.filter_map]
  rfl

theorem filter_scaleTick_nse (rows : List RawInstr) :
    (rows.map scaleTick).filter nseFilter = (rows.filter nseFilter).map scaleTick := by
  rw [List.filter_map]
  rfl

theorem lookup_bse_eq (rows : List RawInstr) (t : EqTokens)
    (h : create_eq_tokens rows = .ok t) (k : String) :
    lookupTable t.bse k
      = ((rows.filter bseFilter).find? (fun r => r.symbol == k)).map
          (fun r => mkEqRecord (scaleTick r)) := by
  rw [(create_eq_tokens_ok rows t h).2, lookupTable_map_key,
      find?_dedupFirst, filter_scaleTick_bse, List.find?_map]
  have hp : ((fun r : RawInstr => r.symbol == k) ∘ scaleTick)
      = fun r : RawInstr => r.symbol == k := rfl
  rw [hp, Option.map_map]
  rfl

theorem lookup_nse_eq (rows : List RawInstr) (t : EqTokens)
    (h : create_eq_tokens rows = .ok t) (k : String) :
    lookupTable t.nse k
      = ((rows.filter nseFilter).find? (fun r => r.name == k)).map
          (fun r => mkEqRecord (scaleTick r)) := by
  rw [(create_eq_tokens_ok rows t h).1, lookupTable_map_key,
      find?_dedupFirst, filter_scaleTick_nse, List.find?_map]
  have hp : ((fun r : RawInstr => r.name == k) ∘ scaleTick)
      = fun r : RawInstr => r.name == k := rfl
  rw [hp, Option.map_map]
  rfl

/-- C3: every record produced by `create_eq_tokens` carries `TickSize` equal
to the raw `tick_size` of the source row divided by 100 exactly, for the BSE table
and the NSE table alike, and the `/100` scaling is applied to every row of
the decoded list before exchange filtering or deduplication. -/
theorem tick_size_scaled_div100 (rows : List RawInstr) (t : EqTokens)
    (h : create_eq_tokens rows = .ok t) :
    (∀ k rec, lookupTable t.bse k = some rec →
        ∃ r, (rows.filter bseFilter).find? (fun x => x.symbol == k) = some r
          ∧ rec.TickSize = r.tick_size.map (fun x => x / 100))
  ∧ (∀ k rec, lookupTable t.nse k = some rec →
        ∃ r, (rows.filter nseFilter).find? (fun x => x.name == k) = some r
          ∧ rec.TickSize = r.tick_size.map (fun x => x / 100))
  ∧ ∀ r ∈ rows, (scaleTick r).tick_size = r.tick_size.map (fun x => x / 100) := by
  refine ⟨?_, ?_, fun r _ => rfl⟩
  · intro k rec hk
    rw [lookup_bse_eq rows t h k] at hk
    cases hf : (rows.filter bseFilter).find? (fun x => x.symbol == k) with
    | none => rw [hf] at hk; exact absurd hk (by simp)
    | some r =>
        rw [hf] at hk
        refine ⟨r, rfl, ?_⟩
        have : rec = mkEqRecord (scaleTick r) := by
          simpa using hk.symm
        rw [this]
        rfl
  · intro k rec hk
    rw [lookup_nse_eq rows t h k] at hk
    cases hf : (rows.filter nseFilter).find? (fun x => x.name == k) with
    | none => rw [hf] at hk; exact absurd hk (by simp)
    | some r =>
        rw [hf] at hk
        refine ⟨r, rfl, ?_⟩
        have : rec = mkEqRecord (scaleTick r) := by
          simpa using hk.symm
        rw [this]
        rfl

/-- C3 witness: one BSE row `MSFT` with raw tick size 1000 yields the
canonical record with `TickSize = 1000 / 100 = 10`. -/
def sampleBseRow : RawInstr := ⟨20412, "MSFT", "MICROSOFT", "BSE", some 1000, "1"⟩

def sampleBseTokens : EqTokens :=
  ⟨[], [("MSFT", ⟨"MSFT", 20412, some ((1000 : ℚ) / 100), "1", "BSE"⟩)]⟩

theorem tick_size_scaled_div100_witness :
    ∃ r, ([sampleBseRow].filter bseFilter).find? (fun x => x.symbol == "MSFT") = some r
      ∧ (some ((1000 : ℚ) / 100)) = r.tick_size.map (fun x => x / 100) :=
  (tick_size_scaled_div100 [sampleBseRow] sampleBseTokens rfl).1 "MSFT"
    ⟨"MSFT", 20412, some ((1000 : ℚ) / 100), "1", "BSE"⟩ rfl

/-- C4: within one exchange the canonical table is keyed uniquely, and the
record stored under a key is derived from the first-occurring row (in
original input order) among the rows selected for that exchange with that
deduplication key — `symbol` for the BSE table, display `name` for the NSE
table. -/
theorem eq_tokens_dedup_first_wins (rows : List RawInstr) (t : EqTokens)
    (h : create_eq_tokens rows = .ok t) :
    ((t.bse.map Prod.fst).Nodup ∧ (t.nse.map Prod.fst).Nodup)
  ∧ (∀ k, lookupTable t.bse k
        = ((rows.filter bseFilter).find? (fun r => r.symbol == k)).map
            (fun r => mkEqRecord (scaleTick r)))
  ∧ (∀ k, lookupTable t.nse k
        = ((rows.filter nseFilter).find? (fun r => r.name == k)).map
            (fun r => mkEqRecord (scaleTick r))) := by
  obtain ⟨hn, hb⟩ := create_eq_tokens_ok rows t h
  refine ⟨⟨?_, ?_⟩, fun k => lookup_bse_eq rows t h k, fun k => lookup_nse_eq rows t h k⟩
  · rw [hb, List.map_map]
    have hc : (Prod.fst ∘ fun r : RawInstr => (r.symbol, mkEqRecord r))
        = fun r : RawInstr => r.symbol := rfl
    rw [hc]
    exact keys_nodup_dedupFirst (fun r : RawInstr => r.symbol) _
  · rw [hn, List.map_map]
    have hc : (Prod.fst ∘ fun r : RawInstr => (r.name, mkEqRecord r))
        = fun r : RawInstr => r.name := rfl
    rw [hc]
    exact keys_nodup_dedupFirst (fun r : RawInstr => r.name) _

/-- C4 witness: two NSE rows named "APPLE" with the same symbol but tokens
10412 and 10413 — the canonical NSE table keeps the record of the first row and
has unique keys. -/
def sampleNseRow1 : RawInstr := ⟨10412, "AAPL-EQ", "APPLE", "NSE", some 500, "1"⟩

def sampleNseRow2 : RawInstr := ⟨10413, "AAPL-EQ", "APPLE", "NSE", some 500, "1"⟩

def sampleNseTokens : EqTokens :=
  ⟨[("APPLE", ⟨"AAPL-EQ", 10412, some ((500 : ℚ) / 100), "1", "NSE"⟩)], []⟩

theorem eq_tokens_dedup_first_wins_witness :
    (sampleNseTokens.nse.map Prod.fst).Nodup
  ∧ lookupTable sampleNseTokens.nse "APPLE"
      = (([sampleNseRow1, sampleNseRow2].filter nseFilter).find?
          (fun r => r.name == "APPLE")).map (fun r => mkEqRecord (scaleTick r)) :=
  ⟨(eq_tokens_dedup_first_wins [sampleNseRow1, sampleNseRow2] sampleNseTokens rfl).1.2,
   (eq_tokens_dedup_first_wins [sampleNseRow1, sampleNseRow2] sampleNseTokens rfl).2.2 "APPLE"⟩

/-- C7: `create_eq_tokens` fails with `TokenDownloadError` on an empty
decoded list, and with a `TokenDownloadError` whose message names the
missing `tick_size` field when no row carries that column; in both cases no
tables are produced (the result is an error, not an `ok`). -/
theorem create_eq_tokens_validation (rows : List RawInstr) :
    (rows = [] → create_eq_tokens rows
        = .error ⟨.tokenDownloadError, "No data fetched from AngelOne API."⟩)
  ∧ (rows ≠ [] → hasTickSizeColumn rows = false →
      create_eq_tokens rows = .error ⟨.tokenDownloadError,
        "Required \x27tick_size\x27 column not found in fetched data."⟩)
  ∧ containsSub "Required \x27tick_size\x27 column not found in fetched data."
      "tick_size" = true := by
  refine ⟨?_, ?_, by decide⟩
  · intro h
    rw [h]
    rfl
  · intro h1 h2
    unfold create_eq_tokens
    rw [if_neg (by simpa using h1), if_pos (by simp [h2])]

/-- C7 witness: the empty list and a one-row list without the tick-size
field both produce the respective `TokenDownloadError`. -/
theorem create_eq_tokens_validation_witness :
    create_eq_tokens []
        = .error ⟨.tokenDownloadError, "No data fetched from AngelOne API."⟩
  ∧ create_eq_tokens [⟨1, "X", "XCORP", "BSE", none, "1"⟩]
        = .error ⟨.tokenDownloadError,
            "Required \x27tick_size\x27 column not found in fetched data."⟩ :=
  ⟨(create_eq_tokens_validation []).1 rfl,
   (create_eq_tokens_validation [⟨1, "X", "XCORP", "BSE", none, "1"⟩]).2.1
      (by simp) rfl⟩

/-! ## C5 — `Broker.filter_future_dates`
(src/core/brokers/base/base.py, lines 495-522).  The pandas primitives are
parameters of the embedding: `parse` models `to_datetime(·, errors="coerce")`
on one element (`none` is NaT), `fmt` models `strftime("%Y-%m-%d")`, and
`now` models `Timestamp.now()`.  Python `sorted` on the formatted strings is
insertion sort under code-point lexicographic order. -/

/-- Python string `≤` as a relation, for sorting. -/
def pyStrLe (s t : String) : Prop := strLe s t = true

instance : DecidableRel pyStrLe := fun s t => by
  unfold pyStrLe
  infer_instance

instance : IsTotal String pyStrLe :=
  ⟨fun s t => strLeAux_total s.data t.data⟩

instance : IsTrans String pyStrLe :=
  ⟨fun a b c => strLeAux_trans a.data b.data c.data⟩

/-- Embeds `Broker.filter_future_dates`: raise `ValueError` when any element fails
to parse, else keep the parsed dates `>= now`, format them, and return the
sorted list. -/
def filter_future_dates (parse : String → Option Int) (fmt : Int → String)
    (now : Int) (data : List String) : Except PyErr (List String) :=
  if ¬ (data.all (fun s => (parse s).isSome)) then
    .error ⟨.valueError, "Invalid date format found in input data."⟩
  else
    let dates := data.filterMap parse
    let future := dates.filter (fun d => now ≤ d)
    .ok (List.insertionSort pyStrLe (future.map fmt))

/-- C5, counterexample: an unparseable element makes `filter_future_dates`
raise the Python built-in `ValueError`, not the `InputError`
class of the library that the claim names. -/
def demoParse : String → Option Int := fun s =>
  if s = "2099-12-31" then some 100
  else if s = "2020-01-01" then some (-100)
  else none

def demoFmt : Int → String := fun d =>
  if d = 100 then "2099-12-31" else "2020-01-01"

theorem filter_future_dates_wrong_error_class :
    errKindOf (filter_future_dates demoParse demoFmt 0 ["2020-01-0x"])
        = some ErrKind.valueError
  ∧ some ErrKind.valueError ≠ some ErrKind.inputError := by
  exact ⟨rfl, by decide⟩

/-- C5, amended: on any unparseable element the whole batch is rejected with
a `ValueError` (not the `InputError` class of the library); otherwise the result is,
up to the sorted rearrangement, exactly the formatted parses of the input
dates that are `>=` the current moment, sorted ascending with insertion
multiplicity preserved. -/
theorem filter_future_dates_spec (parse : String → Option Int)
    (fmt : Int → String) (now : Int) (data : List String) :
    ((∃ s ∈ data, parse s = none) →
        filter_future_dates parse fmt now data
          = .error ⟨.valueError, "Invalid date format found in input data."⟩)
  ∧ (∀ l, filter_future_dates parse fmt now data = .ok l →
        List.Sorted pyStrLe l
      ∧ List.Perm l (((data.filterMap parse).filter (fun d => now ≤ d)).map fmt)) := by
  constructor
  · intro ⟨s, hs, hnone⟩
    have hall : data.all (fun s => (parse s).isSome) = false := by
      rw [List.all_eq_false]
      exact ⟨s, hs, by simp [hnone]⟩
    unfold filter_future_dates
    rw [if_pos (by simp [hall])]
  · intro l hl
    unfold filter_future_dates at hl
    by_cases hall : data.all (fun s => (parse s).isSome)
    · rw [if_neg (not_not_intro hall)] at hl
      have hl2 := Except.ok.inj hl
      rw [← hl2]
      exact ⟨List.sorted_insertionSort pyStrLe _, List.perm_insertionSort pyStrLe _⟩
    · rw [if_pos (by simpa using hall)] at hl
      exact absurd hl (by simp)

/-- C5 witness: a concrete unparseable batch raises the `ValueError`, and a
concrete past/future mix returns exactly the future date, sorted. -/
theorem filter_future_dates_spec_witness :
    filter_future_dates demoParse demoFmt 0 ["garbage"]
        = .error ⟨.valueError, "Invalid date format found in input data."⟩
  ∧ (List.Sorted pyStrLe ["2099-12-31"]
      ∧ List.Perm ["2099-12-31"]
          (((["2020-01-01", "2099-12-31"].filterMap demoParse).filter
              (fun d => (0 : Int) ≤ d)).map demoFmt)) := by
  constructor
  · exact (filter_future_dates_spec demoParse demoFmt 0 ["garbage"]).1
      ⟨"garbage", by simp, rfl⟩
  · exact (filter_future_dates_spec demoParse demoFmt 0
      ["2020-01-01", "2099-12-31"]).2 ["2099-12-31"] rfl

/-! ## C6 — the session-acquisition prelude of `Broker.fetch`
(src/core/brokers/base/base.py, lines 111-127 and `_create_session`,
lines 65-75). -/

/-- The class-level `_session` attribute; `none` is Python `None`.  A live
session object carries no structure the claims observe. -/
structure BrokerState where
  session : Option Unit
  deriving DecidableEq

/-- Embeds `Broker._create_session()`: builds and returns a fresh connection-pooled
session object. -/
def create_session : Unit := ()

/-- The prelude of `Broker.fetch`: the line `if cls._session is None:
cls._create_session()` — the freshly created session is the value of that expression but the statement discards it and `cls._session` is never assigned —
followed by `cls._session.request(...)`, which raises `AttributeError` when
the attribute is still `None`.  Returns the class state after the prelude
together with the session the request would use, or the raised error. -/
def fetch_acquire_session (st : BrokerState) : BrokerState × Except PyErr Unit :=
  let st1 := if st.session.isNone then
      let _ := create_session
      st
    else st
  match st1.session with
  | none => (st1, .error ⟨.attributeError,
      "\x27NoneType\x27 object has no attribute \x27request\x27"⟩)
  | some s => (st1, .ok s)

/-- C6: contrary to the claim, when `_session` is `None` the lazily created
session is never installed — the attribute stays `None` and the request
fails with `AttributeError` instead of proceeding; only a pre-installed
session (as the `AngelOne` subclass sets at class-definition time) lets the
call proceed. -/
theorem fetch_session_never_installed :
    fetch_acquire_session ⟨none⟩
      = (⟨none⟩, .error ⟨.attributeError,
          "\x27NoneType\x27 object has no attribute \x27request\x27"⟩)
  ∧ fetch_acquire_session ⟨some ()⟩ = (⟨some ()⟩, .ok ()) :=
  ⟨rfl, rfl⟩

/-! ## Roots and the process-wide expiry-date table -/

/-- Modelled from the spec: `Root` lives in core/brokers/base/constants.py,
which is not under src/; the six members and their string values are pinned
by the data model of the spec and by tests/core/brokers/base/test_constants.py. -/
inductive RootT where
  | BNF
  | NF
  | FNF
  | MIDCPNF
  | SENSEX
  | BANKEX
  deriving DecidableEq

/-- Modelled from the spec: the string value of each `Root` member
(`Root.BNF == "BANKNIFTY"`, ...), pinned by
tests/core/brokers/base/test_constants.py. -/
def rootStr : RootT → String
  | .BNF => "BANKNIFTY"
  | .NF => "NIFTY"
  | .FNF => "FINNIFTY"
  | .MIDCPNF => "MIDCPNIFTY"
  | .SENSEX => "SENSEX"
  | .BANKEX => "BANKEX"

/-- The process-wide `Broker.expiry_dates` dictionary. -/
abbrev ExpiryTable : Type := List (RootT × List String)

/-- Dictionary read `cls.expiry_dates.get(root)`. -/
def lookupRoot (t : ExpiryTable) (r : RootT) : Option (List String) :=
  (List.find? (fun p => p.1 == r) t).map (fun p => p.2)

/-- Dictionary write `cls.expiry_dates[root] = ds`. -/
def insertRoot (t : ExpiryTable) (r : RootT) (ds : List String) : ExpiryTable :=
  if (List.find? (fun p => p.1 == r) t).isSome then
    List.map (fun p => if p.1 == r then (r, ds) else p) t
  else t ++ [(r, ds)]

theorem lookupRoot_insertRoot_self (t : ExpiryTable) (r : RootT) (ds : List String) :
    lookupRoot (insertRoot t r ds) r = some ds := by
  unfold lookupRoot insertRoot
  by_cases h : (List.find? (fun p => p.1 == r) t).isSome
  · rw [if_pos h]
    induction t with
    | nil => simp at h
    | cons p ps ih =>
      by_cases hp : (p.1 == r) = true
      · simp only [List.map_cons, if_pos hp]
        rw [@List.find?_cons_of_pos _ (fun q : RootT × List String => q.1 == r)
          (r, ds) _ (by simp)]
        rfl
      · simp only [List.map_cons, if_neg hp]
        rw [@List.find?_cons_of_neg _ (fun q : RootT × List String => q.1 == r) p _ hp]
        rw [@List.find?_cons_of_neg _ (fun q : RootT × List String => q.1 == r) p _ hp] at h
        exact ih h
  · rw [if_neg h]
    induction t with
    | nil =>
      rw [List.nil_append,
        @List.find?_cons_of_pos _ (fun q : RootT × List String => q.1 == r)
          (r, ds) _ (by simp)]
      rfl
    | cons p ps ih =>
      have hp : ¬ (p.1 == r) = true := by
        intro hb
        exact h (by
          rw [@List.find?_cons_of_pos _ (fun q : RootT × List String => q.1 == r) p _ hb]
          rfl)
      rw [List.cons_append,
        @List.find?_cons_of_neg _ (fun q : RootT × List String => q.1 == r) p _ hp]
      rw [@List.find?_cons_of_neg _ (fun q : RootT × List String => q.1 == r) p _ hp] at h
      exact ih h

theorem lookupRoot_insertRoot_other (t : ExpiryTable) (r r2 : RootT)
    (ds : List String) (hne : r2 ≠ r) :
    lookupRoot (insertRoot t r ds) r2 = lookupRoot t r2 := by
  unfold lookupRoot insertRoot
  by_cases h : (List.find? (fun p => p.1 == r) t).isSome
  · rw [if_pos h]
    clear h
    induction t with
    | nil => rfl
    | cons p ps ih =>
      by_cases hp : (p.1 == r) = true
      · have hpr : p.1 = r := by simpa using hp
        simp only [List.map_cons, if_pos hp]
        rw [@List.find?_cons_of_neg _ (fun q : RootT × List String => q.1 == r2)
              (r, ds) _ (by simp [Ne.symm hne]),
            @List.find?_cons_of_neg _ (fun q : RootT × List String => q.1 == r2)
              p _ (by simp [hpr, Ne.symm hne])]
        exact ih
      · simp only [List.map_cons, if_neg hp]
        by_cases hq : (p.1 == r2) = true
        · rw [@List.find?_cons_of_pos _ (fun q : RootT × List String => q.1 == r2) p _ hq,
              @List.find?_cons_of_pos _ (fun q : RootT × List String => q.1 == r2) p _ hq]
        · rw [@List.find?_cons_of_neg _ (fun q : RootT × List String => q.1 == r2) p _ hq,
              @List.find?_cons_of_neg _ (fun q : RootT × List String => q.1 == r2) p _ hq]
          exact ih
  · rw [if_neg h]
    clear h
    induction t with
    | nil =>
      rw [List.nil_append,
        @List.find?_cons_of_neg _ (fun q : RootT × List String => q.1 == r2)
          (r, ds) _ (by simp [Ne.symm hne])]
    | cons p ps ih =>
      rw [List.cons_append]
      by_cases hq : (p.1 == r2) = true
      · rw [@List.find?_cons_of_pos _ (fun q : RootT × List String => q.1 == r2) p _ hq,
            @List.find?_cons_of_pos _ (fun q : RootT × List String => q.1 == r2) p _ hq]
      · rw [@List.find?_cons_of_neg _ (fun q : RootT × List String => q.1 == r2) p _ hq,
            @List.find?_cons_of_neg _ (fun q : RootT × List String => q.1 == r2) p _ hq]
        exact ih

/-! ## C8/C9 — expiry discovery
(src/core/brokers/base/base.py, `download_expiry_dates_nfo` lines 524-579
and `download_expiry_dates_bfo` lines 581-647).  Both bodies are the same
`for _ in range(5)` loop: try the primary request, on any exception try the
fallback curl, on any exception `sleep(5)` and continue; a success stores
`filter_future_dates(...)` under the root and returns.  The network calls
are parameters: `prim i` / `fb i` is the raw expiry list extracted from
the primary call / fallback curl of outer attempt `i`, `none` when that
try-block raises before the store. -/

/-- One try-block: the raw fetch/extract may raise (`none`), and
`filter_future_dates` may itself raise a `ValueError`, which the same
`except Exception` swallows. -/
def attemptOutcome (parse : String → Option Int) (fmt : Int → String) (now : Int)
    (raw : Option (List String)) : Option (List String) :=
  match raw with
  | none => none
  | some ds => (filter_future_dates parse fmt now ds).toOption

/-- The shared retry loop, with the attempt index and remaining iterations
explicit.  Returns the final table and the number of `sleep(5)` calls
executed. -/
def download_expiry_loop (parse : String → Option Int) (fmt : Int → String)
    (now : Int) (prim fb : Nat → Option (List String)) (root : RootT) :
    Nat → Nat → ExpiryTable → ExpiryTable × Nat
  | _, 0, t => (t, 0)
  | i, fuel+1, t =>
    match attemptOutcome parse fmt now (prim i) with
    | some ds => (insertRoot t root ds, 0)
    | none =>
      match attemptOutcome parse fmt now (fb i) with
      | some ds => (insertRoot t root ds, 0)
      | none =>
        let rest := download_expiry_loop parse fmt now prim fb root (i + 1) fuel t
        (rest.1, rest.2 + 1)

/-- Embeds `Broker.download_expiry_dates_nfo`: the retry loop run for 5 outer
attempts, starting from the current process-wide table. -/
def download_expiry_dates_nfo (parse : String → Option Int) (fmt : Int → String)
    (now : Int) (prim fb : Nat → Option (List String)) (root : RootT)
    (t : ExpiryTable) : ExpiryTable × Nat :=
  download_expiry_loop parse fmt now prim fb root 0 5 t

/-- Embeds `Broker.download_expiry_dates_bfo`: identical loop structure; only the
request construction (modelled separately below) differs. -/
def download_expiry_dates_bfo (parse : String → Option Int) (fmt : Int → String)
    (now : Int) (prim fb : Nat → Option (List String)) (root : RootT)
    (t : ExpiryTable) : ExpiryTable × Nat :=
  download_expiry_loop parse fmt now prim fb root 0 5 t

theorem loop_all_fail (parse : String → Option Int) (fmt : Int → String)
    (now : Int) (prim fb : Nat → Option (List String)) (root : RootT) :
    ∀ (fuel i : Nat) (t : ExpiryTable),
      (∀ k, k < fuel → attemptOutcome parse fmt now (prim (i + k)) = none
          ∧ attemptOutcome parse fmt now (fb (i + k)) = none) →
      download_expiry_loop parse fmt now prim fb root i fuel t = (t, fuel) := by
  intro fuel
  induction fuel with
  | zero => intro i t _; rfl
  | succ fuel ih =>
    intro i t h
    have h0 := h 0 (Nat.succ_pos fuel)
    rw [Nat.add_zero] at h0
    have hrest : download_expiry_loop parse fmt now prim fb root (i + 1) fuel t
        = (t, fuel) := by
      refine ih (i + 1) t ?_
      intro k hk
      have := h (k + 1) (by omega)
      rwa [show i + (k + 1) = i + 1 + k by omega] at this
    simp only [download_expiry_loop, h0.1, h0.2, hrest]

theorem loop_success_prim (parse : String → Option Int) (fmt : Int → String)
    (now : Int) (prim fb : Nat → Option (List String)) (root : RootT) :
    ∀ (fuel i j : Nat) (t : ExpiryTable) (ds : List String), j < fuel →
      (∀ k, k < j → attemptOutcome parse fmt now (prim (i + k)) = none
          ∧ attemptOutcome parse fmt now (fb (i + k)) = none) →
      attemptOutcome parse fmt now (prim (i + j)) = some ds →
      download_expiry_loop parse fmt now prim fb root i fuel t
        = (insertRoot t root ds, j) := by
  intro fuel
  induction fuel with
  | zero => intro i j t ds hj; omega
  | succ fuel ih =>
    intro i j t ds hj hfail hok
    cases j with
    | zero =>
      rw [Nat.add_zero] at hok
      simp only [download_expiry_loop, hok]
    | succ j =>
      have h0 := hfail 0 (Nat.succ_pos j)
      rw [Nat.add_zero] at h0
      have hrest : download_expiry_loop parse fmt now prim fb root (i + 1) fuel t
          = (insertRoot t root ds, j) := by
        refine ih (i + 1) j t ds (by omega) ?_ ?_
        · intro k hk
          have := hfail (k + 1) (by omega)
          rwa [show i + (k + 1) = i + 1 + k by omega] at this
        · rwa [show i + 1 + j = i + (j + 1) by omega]
      simp only [download_expiry_loop, h0.1, h0.2, hrest]

theorem loop_success_fb (parse : String → Option Int) (fmt : Int → String)
    (now : Int) (prim fb : Nat → Option (List String)) (root : RootT) :
    ∀ (fuel i j : Nat) (t : ExpiryTable) (ds : List String), j < fuel →
      (∀ k, k < j → attemptOutcome parse fmt now (prim (i + k)) = none
          ∧ attemptOutcome parse fmt now (fb (i + k)) = none) →
      attemptOutcome parse fmt now (prim (i + j)) = none →
      attemptOutcome parse fmt now (fb (i + j)) = some ds →
      download_expiry_loop parse fmt now prim fb root i fuel t
        = (insertRoot t root ds, j) := by
  intro fuel
  induction fuel with
  | zero => intro i j t ds hj; omega
  | succ fuel ih =>
    intro i j t ds hj hfail hp hok
    cases j with
    | zero =>
      rw [Nat.add_zero] at hp hok
      simp only [download_expiry_loop, hp, hok]
    | succ j =>
      have h0 := hfail 0 (Nat.succ_pos j)
      rw [Nat.add_zero] at h0
      have hrest : download_expiry_loop parse fmt now prim fb root (i + 1) fuel t
          = (insertRoot t root ds, j) := by
        refine ih (i + 1) j t ds (by omega) ?_ ?_ ?_
        · intro k hk
          have := hfail (k + 1) (by omega)
          rwa [show i + (k + 1) = i + 1 + k by omega] at this
        · rwa [show i + 1 + j = i + (j + 1) by omega]
        · rwa [show i + 1 + j = i + (j + 1) by omega]
      simp only [download_expiry_loop, h0.1, h0.2, hrest]

/-- C8: expiry discovery never raises.  When all 5 outer attempts fail in
both their primary call and their fallback, the loop returns normally after
5 sleeps and the table keeps no entry for the root if it had none; on the
first successful attempt (primary or fallback) the filtered sorted date
list is stored under the root and the loop stops — later attempts are
irrelevant, and the sleep count equals the number of fully failed earlier
iterations. -/
theorem download_expiry_retry_semantics (parse : String → Option Int)
    (fmt : Int → String) (now : Int) (prim fb : Nat → Option (List String))
    (root : RootT) (t : ExpiryTable) :
    ((∀ i, i < 5 → attemptOutcome parse fmt now (prim i) = none
        ∧ attemptOutcome parse fmt now (fb i) = none) →
      download_expiry_dates_nfo parse fmt now prim fb root t = (t, 5)
      ∧ download_expiry_dates_bfo parse fmt now prim fb root t = (t, 5)
      ∧ (lookupRoot t root = none →
          lookupRoot (download_expiry_dates_nfo parse fmt now prim fb root t).1 root
            = none))
  ∧ (∀ j, j < 5 →
      (∀ k, k < j → attemptOutcome parse fmt now (prim k) = none
          ∧ attemptOutcome parse fmt now (fb k) = none) →
      ∀ raw ds, prim j = some raw →
        filter_future_dates parse fmt now raw = .ok ds →
        download_expiry_dates_nfo parse fmt now prim fb root t
            = (insertRoot t root ds, j)
        ∧ download_expiry_dates_bfo parse fmt now prim fb root t
            = (insertRoot t root ds, j)
        ∧ lookupRoot (download_expiry_dates_nfo parse fmt now prim fb root t).1 root
            = some ds)
  ∧ (∀ j, j < 5 →
      (∀ k, k < j → attemptOutcome parse fmt now (prim k) = none
          ∧ attemptOutcome parse fmt now (fb k) = none) →
      attemptOutcome parse fmt now (prim j) = none →
      ∀ raw ds, fb j = some raw →
        filter_future_dates parse fmt now raw = .ok ds →
        download_expiry_dates_nfo parse fmt now prim fb root t
            = (insertRoot t root ds, j)
        ∧ download_expiry_dates_bfo parse fmt now prim fb root t
            = (insertRoot t root ds, j)) := by
  refine ⟨?_, ?_, ?_⟩
  · intro h
    have hl := loop_all_fail parse fmt now prim fb root 5 0 t
      (by intro k hk; simpa using h k hk)
    refine ⟨hl, hl, ?_⟩
    intro hnone
    rw [show (download_expiry_dates_nfo parse fmt now prim fb root t).1 = t by
      rw [show download_expiry_dates_nfo parse fmt now prim fb root t
          = download_expiry_loop parse fmt now prim fb root 0 5 t from rfl, hl]]
    exact hnone
  · intro j hj hfail raw ds hraw hfds
    have hok : attemptOutcome parse fmt now (prim j) = some ds := by
      rw [hraw]
      simp [attemptOutcome, hfds, Except.toOption]
    have hl := loop_success_prim parse fmt now prim fb root 5 0 j t ds hj
      (by intro k hk; simpa using hfail k hk) (by simpa using hok)
    refine ⟨hl, hl, ?_⟩
    rw [show (download_expiry_dates_nfo parse fmt now prim fb root t).1
        = insertRoot t root ds by
      rw [show download_expiry_dates_nfo parse fmt now prim fb root t
          = download_expiry_loop parse fmt now prim fb root 0 5 t from rfl, hl]]
    exact lookupRoot_insertRoot_self t root ds
  · intro j hj hfail hp raw ds hraw hfds
    have hok : attemptOutcome parse fmt now (fb j) = some ds := by
      rw [hraw]
      simp [attemptOutcome, hfds, Except.toOption]
    have hl := loop_success_fb parse fmt now prim fb root 5 0 j t ds hj
      (by intro k hk; simpa using hfail k hk) (by simpa using hp)
      (by simpa using hok)
    exact ⟨hl, hl⟩

/-- C8 witness: with every attempt failing the loop ends with the table
unchanged after 5 sleeps; with the first primary attempt succeeding the
filtered list is stored at once with no sleeps. -/
theorem download_expiry_retry_semantics_witness :
    download_expiry_dates_nfo demoParse demoFmt 0 (fun _ => none) (fun _ => none)
        RootT.NF [] = ([], 5)
  ∧ download_expiry_dates_nfo demoParse demoFmt 0
        (fun i => if i = 0 then some ["2099-12-31"] else none) (fun _ => none)
        RootT.NF []
      = (insertRoot [] RootT.NF ["2099-12-31"], 0) := by
  constructor
  · exact ((download_expiry_retry_semantics demoParse demoFmt 0
      (fun _ => none) (fun _ => none) RootT.NF []).1
        (by intro i _; exact ⟨rfl, rfl⟩)).1
  · exact ((download_expiry_retry_semantics demoParse demoFmt 0
      (fun i => if i = 0 then some ["2099-12-31"] else none) (fun _ => none)
      RootT.NF []).2.1 0 (by omega) (by intro k hk; omega) ["2099-12-31"]
      ["2099-12-31"] rfl rfl).1

/-! ## C9 — primary vs fallback request construction. -/

def nfo_url : String := "https://www.nseindia.com/api/option-chain-indices"

def bfo_url : String := "https://api.bseindia.com/BseIndiaAPI/api/ddlExpiry_IV/w"

/-- Effective URL of the primary NFO request: `GET nfo_url` with
`params = {"symbol": f"{root}"}` (base.py lines 547-558). -/
def nfo_primary_request (root : RootT) : String :=
  nfo_url ++ "?symbol=" ++ rootStr root

/-- Target of the NFO fallback curl (base.py line 569):
`"{cls.nfo_url}?symbol={root}"`. -/
def nfo_fallback_request (root : RootT) : String :=
  nfo_url ++ "?symbol=" ++ rootStr root

/-- The `scrip_cd` chosen by `download_expiry_dates_bfo` (base.py lines
586-589); unbound for any other root. -/
def bfo_scrip_cd (root : RootT) : Option Nat :=
  if root = RootT.SENSEX then some 1
  else if root = RootT.BANKEX then some 12
  else none

/-- Effective URL of the primary BFO request: `GET bfo_url` with
`params = {"ProductType": "IO", "scrip_cd": scrip_cd}` (lines 611-622). -/
def bfo_primary_request (root : RootT) : Option String :=
  (bfo_scrip_cd root).map
    (fun c => bfo_url ++ "?ProductType=IO&scrip_cd=" ++ toString c)

/-- Target of the BFO fallback curl (line 635): the query string is the
literal `?ProductType=IO&scrip_cd=1`, with no dependence on the root. -/
def bfo_fallback_request : String :=
  bfo_url ++ "?ProductType=IO&scrip_cd=1"

/-- C9: the NFO fallback requests the same endpoint and symbol parameter as
the NFO primary for every NIFTY-family root, and the BFO fallback matches
the BFO primary for SENSEX — but for BANKEX the primary requests
`scrip_cd=12` while the fallback hardcodes `scrip_cd=1`, so the claimed
equivalence fails on root BANKEX. -/
theorem bfo_fallback_scrip_cd_mismatch :
    (nfo_primary_request RootT.BNF = nfo_fallback_request RootT.BNF
      ∧ nfo_primary_request RootT.NF = nfo_fallback_request RootT.NF
      ∧ nfo_primary_request RootT.FNF = nfo_fallback_request RootT.FNF
      ∧ nfo_primary_request RootT.MIDCPNF = nfo_fallback_request RootT.MIDCPNF)
  ∧ bfo_primary_request RootT.SENSEX = some bfo_fallback_request
  ∧ bfo_primary_request RootT.BANKEX
      = some (bfo_url ++ "?ProductType=IO&scrip_cd=12")
  ∧ bfo_primary_request RootT.BANKEX ≠ some bfo_fallback_request := by
  refine ⟨⟨rfl, rfl, rfl, rfl⟩, by decide, by decide, by decide⟩

/-! ## C10 — `Broker.jsonify_expiry`
(src/core/brokers/base/base.py, lines 649-783).  The option table is a list
of rows with the columns the function touches; the `Option` column is named
`OptType` here to avoid clashing with the `Option` type.  The on-demand
discovery call made for a root missing from the table is a parameter
`discover`: it returns the date list that call would store for the root, or
`none` when discovery gives up silently and stores nothing. -/

structure OptionRow where
  Token : Int
  Symbol : String
  Expiry : String
  /-- Embeds the `Option` column: "CE" | "PE". -/
  OptType : String
  StrikePrice : Int
  LotSize : String
  Root : String
  deriving DecidableEq

/-- A row after `dfex["ExpiryName"] = expiry_name`. -/
structure TaggedRow where
  row : OptionRow
  ExpiryName : String
  deriving DecidableEq

/-- Embeds `global_dict = \x7b"CE": \x7b\x7d, "PE": \x7b\x7d\x7d`, filled per strike price. -/
structure OptionChain where
  ce : List (Int × TaggedRow)
  pe : List (Int × TaggedRow)
  deriving DecidableEq

/-- Embeds `dfex.groupby(["Option", "StrikePrice"])` restricted to one option
type: one entry per strike present, holding `i.to_dict("records")[0]`, the
first row of the group. -/
def strikesOf (opt : String) (rows : List TaggedRow) : List (Int × TaggedRow) :=
  (dedupFirst (fun k : Int => k)
      (rows.filterMap
        (fun r => if r.row.OptType == opt then some r.row.StrikePrice else none))).filterMap
    (fun k => (rows.find?
        (fun r => r.row.OptType == opt && r.row.StrikePrice == k)).map (fun r => (k, r)))

def groupFirst (rows : List TaggedRow) : OptionChain :=
  ⟨strikesOf "CE" rows, strikesOf "PE" rows⟩

/-- The nested structure built by `jsonify_expiry`: the five
`WeeklyExpiry` keys, each mapping every root.  `none` in a chain slot is
the untouched `{}` placeholder; `none` in a lot-size slot is the `nan`
placeholder. -/
structure ExpiryData where
  current : List (RootT × Option OptionChain)
  next : List (RootT × Option OptionChain)
  far : List (RootT × Option OptionChain)
  expiry : List (RootT × List String)
  lotSize : List (RootT × Option String)
  deriving DecidableEq

/-- The fixed processing order of the six roots (lines 743-750). -/
def rootsOrder : List RootT :=
  [RootT.BNF, RootT.NF, RootT.FNF, RootT.MIDCPNF, RootT.SENSEX, RootT.BANKEX]

/-- Dictionary write `m[root] = v` on a mapping initialized with all six
roots. -/
def setRoot {β : Type} (m : List (RootT × β)) (root : RootT) (v : β) :
    List (RootT × β) :=
  m.map (fun p => if p.1 == root then (root, v) else p)

/-- The initializer of `expiry_data` (lines 698-739). -/
def initExpiryData : ExpiryData :=
  ⟨rootsOrder.map (fun r => (r, none)), rootsOrder.map (fun r => (r, none)),
   rootsOrder.map (fun r => (r, none)), rootsOrder.map (fun r => (r, [])),
   rootsOrder.map (fun r => (r, none))⟩

/-- One bucket: `dfex = small_df[small_df["Expiry"] == date]` tagged with
the bucket label; the assignment into `expiry_data` happens inside the
group-by loop, so an empty `dfex` leaves the placeholder untouched. -/
def mkBucket (label : String) (d : String) (small : List OptionRow) :
    Option OptionChain :=
  let dfex := (small.filter (fun r => r.Expiry == d)).map
    (fun r => TaggedRow.mk r label)
  if dfex.isEmpty then none else some (groupFirst dfex)

/-- The external collaborators of `jsonify_expiry`: the on-demand
discovery outcome per root, and `str(datetime.now().date())`. -/
structure JsonifyEnv where
  discover : RootT → Option (List String)
  todayStr : String

/-- Embeds `if root not in cls.expiry_dates: download_expiry_dates_*(root)` —
discovery mutates the table at that root only, or not at all. -/
def discoverStep (env : JsonifyEnv) (t : ExpiryTable) (root : RootT) : ExpiryTable :=
  if (lookupRoot t root).isSome then t
  else
    match env.discover root with
    | some ds => insertRoot t root ds
    | none => t

/-- The body run for a root with at least one matching row: reads
`cls.expiry_dates[root][0..2]` — a missing key raises `KeyError`, fewer
than three dates raise `IndexError` — and otherwise fills that root, setting its
buckets, expiry list and lot size. -/
def processRoot (env : JsonifyEnv) (t1 : ExpiryTable) (root : RootT)
    (small : List OptionRow) (acc : ExpiryData) : Except PyErr ExpiryData :=
  let expiries := (dedupFirst (fun s : String => s)
      (small.map (fun r => r.Expiry))).filter (fun e => strLe env.todayStr e)
  let lotsize := small.head?.map (fun r => r.LotSize)
  match lookupRoot t1 root with
  | none => .error ⟨.keyError, rootStr root⟩
  | some ds =>
    match ds with
    | d1 :: d2 :: d3 :: _ =>
        .ok
          { current :=
              match mkBucket "CURRENT" d1 small with
              | some c => setRoot acc.current root (some c)
              | none => acc.current
            next :=
              match mkBucket "NEXT" d2 small with
              | some c => setRoot acc.next root (some c)
              | none => acc.next
            far :=
              match mkBucket "FAR" d3 small with
              | some c => setRoot acc.far root (some c)
              | none => acc.far
            expiry := setRoot acc.expiry root expiries
            lotSize := setRoot acc.lotSize root lotsize }
    | _ => .error ⟨.indexError, "list index out of range"⟩

/-- The `for root in [...]` loop of `jsonify_expiry`, threading the
process-wide table (mutated by on-demand discovery) and the accumulator. -/
def jsonifyRoots (env : JsonifyEnv) :
    List RootT → ExpiryTable → List OptionRow → ExpiryData →
      Except PyErr (ExpiryData × ExpiryTable)
  | [], t, _, acc => .ok (acc, t)
  | root :: rest, t, sortedRows, acc =>
    let t1 := discoverStep env t root
    let small := sortedRows.filter (fun r => r.Root == rootStr root)
    if small.isEmpty then jsonifyRoots env rest t1 sortedRows acc
    else
      match processRoot env t1 root small acc with
      | .ok acc1 => jsonifyRoots env rest t1 sortedRows acc1
      | .error e => .error e

/-- Embeds `Broker.jsonify_expiry`: sort by expiry, then process the six roots in
order starting from the initialized placeholder structure. -/
def jsonify_expiry (env : JsonifyEnv) (table : ExpiryTable)
    (rows : List OptionRow) : Except PyErr ExpiryData :=
  (jsonifyRoots env rootsOrder table
      (List.insertionSort (fun a b => pyStrLe a.Expiry b.Expiry) rows)
      initExpiryData).map (fun p => p.1)

/-- The entry the loop sees for a root after the on-demand discovery
attempt: the table entry if present, else whatever discovery stores. -/
def effectiveLookup (env : JsonifyEnv) (table : ExpiryTable) (root : RootT) :
    Option (List String) :=
  match lookupRoot table root with
  | some ds => some ds
  | none => env.discover root

theorem processRoot_isOk (env : JsonifyEnv) (t1 : ExpiryTable) (root : RootT)
    (small : List OptionRow) (acc : ExpiryData) :
    (processRoot env t1 root small acc).isOk = true ↔
      ∃ ds, lookupRoot t1 root = some ds ∧ 3 ≤ ds.length := by
  unfold processRoot
  cases hlk : lookupRoot t1 root with
  | none =>
    constructor
    · intro h; exact Bool.noConfusion h
    · intro ⟨ds, hds, _⟩; exact absurd hds (by simp)
  | some ds =>
    match ds with
    | [] =>
      constructor
      · intro h; exact Bool.noConfusion h
      · intro ⟨ds2, hds2, hlen⟩
        have he : ds2 = [] := (Option.some.inj hds2).symm
        subst he
        simp at hlen
    | [d1] =>
      constructor
      · intro h; exact Bool.noConfusion h
      · intro ⟨ds2, hds2, hlen⟩
        have he : ds2 = [d1] := (Option.some.inj hds2).symm
        subst he
        simp at hlen
    | [d1, d2] =>
      constructor
      · intro h; exact Bool.noConfusion h
      · intro ⟨ds2, hds2, hlen⟩
        have he : ds2 = [d1, d2] := (Option.some.inj hds2).symm
        subst he
        simp at hlen
    | d1 :: d2 :: d3 :: tl =>
      constructor
      · intro _
        exact ⟨d1 :: d2 :: d3 :: tl, rfl, by
          simp only [List.length_cons]
          omega⟩
      · intro _; rfl

theorem lookup_discoverStep_other (env : JsonifyEnv) (t : ExpiryTable)
    (root r2 : RootT) (hne : r2 ≠ root) :
    lookupRoot (discoverStep env t root) r2 = lookupRoot t r2 := by
  unfold discoverStep
  by_cases h : (lookupRoot t root).isSome
  · rw [if_pos h]
  · rw [if_neg h]
    cases env.discover root with
    | none => rfl
    | some ds => exact lookupRoot_insertRoot_other t root r2 ds hne

theorem lookup_discoverStep_self (env : JsonifyEnv) (table t : ExpiryTable)
    (root : RootT)
    (hInv : lookupRoot t root = lookupRoot table root
      ∨ lookupRoot t root = effectiveLookup env table root) :
    lookupRoot (discoverStep env t root) root = effectiveLookup env table root := by
  unfold discoverStep
  cases hv : lookupRoot t root with
  | some v =>
    rw [if_pos (show (some v).isSome = true from rfl)]
    rcases hInv with hInv | hInv
    · unfold effectiveLookup
      rw [← hInv, hv]
    · exact hInv
  | none =>
    rw [if_neg (show ¬ (none : Option (List String)).isSome = true by simp)]
    rcases hInv with hInv | hInv
    · have htab : lookupRoot table root = none := by rw [← hInv, hv]
      have heq : effectiveLookup env table root = env.discover root := by
        unfold effectiveLookup
        rw [htab]
      rw [heq]
      cases hd : env.discover root with
      | some ds => exact lookupRoot_insertRoot_self t root ds
      | none => exact hv
    · have heff : effectiveLookup env table root = none := hInv.symm.trans hv
      have hdisc : env.discover root = none := by
        unfold effectiveLookup at heff
        cases hlt : lookupRoot table root with
        | some v => rw [hlt] at heff; exact absurd heff (by simp)
        | none => rw [hlt] at heff; exact heff
      rw [heff, hdisc]
      exact hv

theorem discoverStep_invariant (env : JsonifyEnv) (table t : ExpiryTable)
    (root : RootT)
    (hInv : ∀ r, lookupRoot t r = lookupRoot table r
      ∨ lookupRoot t r = effectiveLookup env table r) :
    ∀ r, lookupRoot (discoverStep env t root) r = lookupRoot table r
      ∨ lookupRoot (discoverStep env t root) r = effectiveLookup env table r := by
  intro r
  by_cases hr : r = root
  · subst hr
    exact Or.inr (lookup_discoverStep_self env table t r (hInv r))
  · rw [lookup_discoverStep_other env t root r hr]
    exact hInv r

theorem isOk_map {ε α β : Type} (e : Except ε α) (f : α → β) :
    (e.map f).isOk = e.isOk := by
  cases e <;> rfl

theorem jsonifyRoots_isOk_iff (env : JsonifyEnv) (table : ExpiryTable)
    (sortedRows : List OptionRow) :
    ∀ (l : List RootT) (t : ExpiryTable) (acc : ExpiryData),
      (∀ r, lookupRoot t r = lookupRoot table r
          ∨ lookupRoot t r = effectiveLookup env table r) →
      ((jsonifyRoots env l t sortedRows acc).isOk = true ↔
        ∀ root ∈ l, sortedRows.filter (fun x => x.Root == rootStr root) ≠ [] →
          ∃ ds, effectiveLookup env table root = some ds ∧ 3 ≤ ds.length) := by
  intro l
  induction l with
  | nil =>
    intro t acc _
    constructor
    · intro _ root hmem
      exact absurd hmem (List.not_mem_nil root)
    · intro _
      rfl
  | cons root rest ih =>
    intro t acc hInv
    have hL1 := lookup_discoverStep_self env table t root (hInv root)
    have hInv1 := discoverStep_invariant env table t root hInv
    by_cases hs : (sortedRows.filter (fun x => x.Root == rootStr root)).isEmpty
    · have hstep : jsonifyRoots env (root :: rest) t sortedRows acc
          = jsonifyRoots env rest (discoverStep env t root) sortedRows acc := by
        simp only [jsonifyRoots]
        rw [if_pos hs]
      rw [hstep, ih (discoverStep env t root) acc hInv1, List.forall_mem_cons]
      have hnil : sortedRows.filter (fun x => x.Root == rootStr root) = [] :=
        List.isEmpty_iff.mp hs
      constructor
      · intro h
        exact ⟨fun hne => absurd hnil hne, h⟩
      · intro h
        exact h.2
    · have hsne : sortedRows.filter (fun x => x.Root == rootStr root) ≠ [] := by
        intro hb
        rw [hb] at hs
        exact hs rfl
      cases hpr : processRoot env (discoverStep env t root) root
          (sortedRows.filter (fun x => x.Root == rootStr root)) acc with
      | error e =>
        have hstep : jsonifyRoots env (root :: rest) t sortedRows acc = .error e := by
          simp only [jsonifyRoots]
          rw [if_neg hs, hpr]
        rw [hstep]
        constructor
        · intro h; exact Bool.noConfusion h
        · intro h
          exfalso
          obtain ⟨ds, hds, hlen⟩ := h root (List.mem_cons_self root rest) hsne
          have hthis : (processRoot env (discoverStep env t root) root
              (sortedRows.filter (fun x => x.Root == rootStr root)) acc).isOk = true := by
            rw [processRoot_isOk]
            exact ⟨ds, hL1.trans hds, hlen⟩
          rw [hpr] at hthis
          exact Bool.noConfusion hthis
      | ok acc1 =>
        have hstep : jsonifyRoots env (root :: rest) t sortedRows acc
            = jsonifyRoots env rest (discoverStep env t root) sortedRows acc1 := by
          simp only [jsonifyRoots]
          rw [if_neg hs, hpr]
        rw [hstep, ih (discoverStep env t root) acc1 hInv1, List.forall_mem_cons]
        have hok : ∃ ds, effectiveLookup env table root = some ds ∧ 3 ≤ ds.length := by
          have : (processRoot env (discoverStep env t root) root
              (sortedRows.filter (fun x => x.Root == rootStr root)) acc).isOk = true := by
            rw [hpr]; rfl
          rw [processRoot_isOk] at this
          obtain ⟨ds, hds, hlen⟩ := this
          exact ⟨ds, hL1.symm.trans hds, hlen⟩
        exact ⟨fun h => ⟨fun _ => hok, h⟩, fun h => h.2⟩

/-- C10: `jsonify_expiry` succeeds exactly when every root with at least
one matching row in the option table has, after the synchronous on-demand
discovery attempt, a table entry with at least three dates; a missing entry
or a shorter list makes the whole call fail with a `KeyError`/`IndexError`
instead of returning a padded structure. -/
theorem jsonify_expiry_precondition (env : JsonifyEnv) (table : ExpiryTable)
    (rows : List OptionRow) :
    (jsonify_expiry env table rows).isOk = true ↔
      ∀ root ∈ rootsOrder, rows.filter (fun x => x.Root == rootStr root) ≠ [] →
        ∃ ds, effectiveLookup env table root = some ds ∧ 3 ≤ ds.length := by
  unfold jsonify_expiry
  rw [isOk_map,
    jsonifyRoots_isOk_iff env table
      (List.insertionSort (fun a b => pyStrLe a.Expiry b.Expiry) rows) rootsOrder table
      initExpiryData (fun r => Or.inl rfl)]
  constructor
  · intro h root hmem hfil
    refine h root hmem ?_
    intro hb
    have hperm := (List.perm_insertionSort
      (fun a b => pyStrLe a.Expiry b.Expiry) rows).filter
      (fun x => x.Root == rootStr root)
    rw [hb] at hperm
    exact hfil (List.Perm.eq_nil hperm.symm)
  · intro h root hmem hfil
    refine h root hmem ?_
    intro hb
    have hperm := (List.perm_insertionSort
      (fun a b => pyStrLe a.Expiry b.Expiry) rows).filter
      (fun x => x.Root == rootStr root)
    rw [hb] at hperm
    exact hfil (List.Perm.eq_nil hperm)

/-- A concrete environment with no discovery results. -/
def c10Env : JsonifyEnv := ⟨fun _ => none, "2024-01-01"⟩

/-- C10 witness: with no option rows no root has a matching row, so the
precondition holds vacuously and the call returns the placeholder
structure. -/
theorem jsonify_expiry_precondition_witness :
    (jsonify_expiry c10Env [] []).isOk = true := by
  rw [jsonify_expiry_precondition c10Env [] []]
  intro root hmem hfil
  exact absurd rfl hfil

end IndiaStocks
